import Mathlib

/-! catpoint: slide lifecycle and navigation state machine.

A shallow embedding of `catpoint.c`.  The C globals become the record `St`,
the operating system and curses library are an oracle `World` (which calls
fail) plus an output trace of the calls made, and the mutually recursive
`unloadcurrentslide` / `cleanup` / `die` are given a call-depth budget.
-/

namespace Catpoint

/-! ## Constants of the C environment -/

/-- Signal number of SIGHUP in `<signal.h>`. -/
def SIGHUP : Int := 1
/-- Signal number of SIGINT in `<signal.h>`. -/
def SIGINT : Int := 2
/-- Signal number of SIGQUIT in `<signal.h>`. -/
def SIGQUIT : Int := 3
/-- Signal number of SIGTERM in `<signal.h>`. -/
def SIGTERM : Int := 15
/-- Signal number of SIGWINCH in `<signal.h>`. -/
def SIGWINCH : Int := 28

/-- Key code `KEY_DOWN` (octal 0402) of `<curses.h>`. -/
def KEY_DOWN : Int := 258
/-- Key code `KEY_UP` (octal 0403) of `<curses.h>`. -/
def KEY_UP : Int := 259
/-- Key code `KEY_LEFT` (octal 0404) of `<curses.h>`. -/
def KEY_LEFT : Int := 260
/-- Key code `KEY_RIGHT` (octal 0405) of `<curses.h>`. -/
def KEY_RIGHT : Int := 261
/-- Key code `KEY_HOME` (octal 0406) of `<curses.h>`. -/
def KEY_HOME : Int := 262
/-- Key code `KEY_F(n)`, that is `KEY_F0 + n` with `KEY_F0` octal 0410. -/
def KEY_F (n : Int) : Int := 264 + n
/-- Key code `KEY_NPAGE` (octal 0522) of `<curses.h>`. -/
def KEY_NPAGE : Int := 338
/-- Key code `KEY_PPAGE` (octal 0523) of `<curses.h>`. -/
def KEY_PPAGE : Int := 339
/-- Key code `KEY_BEG` (octal 0542) of `<curses.h>`. -/
def KEY_BEG : Int := 354
/-- Key code `KEY_END` (octal 0550) of `<curses.h>`. -/
def KEY_END : Int := 360
/-- Key code `KEY_RESIZE` (octal 0632) of `<curses.h>`. -/
def KEY_RESIZE : Int := 410

/-- Case labels of the switch that end the presentation: `4`, `27`, `KEY_F(5)`, `'q'`. -/
def quitKeys : List Int := [4, 27, KEY_F 5, 113]
/-- Case labels "next": `' '`, `'l'`, `'j'`, `KEY_RIGHT`, `KEY_DOWN`, `KEY_NPAGE`. -/
def nextKeys : List Int := [32, 108, 106, KEY_RIGHT, KEY_DOWN, KEY_NPAGE]
/-- Case labels "prev": `'h'`, `'k'`, `KEY_LEFT`, `KEY_UP`, `KEY_PPAGE`. -/
def prevKeys : List Int := [104, 107, KEY_LEFT, KEY_UP, KEY_PPAGE]
/-- Case labels "first": `'.'`, `'u'`, `KEY_BEG`, `KEY_HOME`. -/
def firstKeys : List Int := [46, 117, KEY_BEG, KEY_HOME]
/-- Case labels "last": `'i'`, `KEY_END`. -/
def lastKeys : List Int := [105, KEY_END]
/-- Case labels "reload": `'r'`, `12`, `KEY_RESIZE`. -/
def reloadKeys : List Int := [114, 12, KEY_RESIZE]

/-- Conversion of a file size (`off_t`) to the 32-bit `int` `currentslidelen`. -/
def toInt32 (n : Int) : Int := (n + 2147483648) % 4294967296 - 2147483648

/-- Exit status seen by the parent for the argument given to `_exit`. -/
def exitStatus (code : Int) : Int := code % 256

/-! ## Data model -/

/-- Outcome of the `open` / `fstat` / `mmap` sequence of `loadcurrentslide`. -/
inductive Acq
  | openFail
  | fstatFail
  | mmapFail
  | ok (bytes : List Nat)
  deriving DecidableEq

/-- The message handed to `die`. -/
inductive Diag
  | usage
  | munmap (slide : Int)
  | openf (slide : Int)
  | fstat (slide : Int)
  | mmap (slide : Int)
  | raise
  deriving DecidableEq

/-- Calls in program order.  `load` marks the entry into `loadcurrentslide`,
`acquire` stands for its `open`, `fstat`, `mmap`, `close` sequence with the
outcome, `stderr` for the output of `die` (the flag says whether the error
text of a nonzero saved `errno` follows), the others are the library calls
of the same name. -/
inductive Ev
  | setsignal
  | setlocale
  | initscr
  | cbreak
  | noecho
  | nonl
  | intrflush
  | keypad
  | curs_set
  | load (slide : Int)
  | munmap (ok : Bool)
  | acquire (slide : Int) (r : Acq)
  | endwin
  | stderr (d : Diag) (errno : Bool)
  | clear
  | refresh
  | printw (len : Int) (p : Option (List Nat))
  | raise (sig : Int) (ok : Bool)
  deriving DecidableEq

/-- The global variables of `catpoint.c` together with the trace of calls
made so far.  `currentslidep` is `none` for `NULL` and otherwise holds the
bytes of the mapping the pointer was obtained for. -/
structure St where
  nslides : Int
  currentslide : Int
  currentslidep : Option (List Nat)
  currentslidelen : Int
  slidechanged : Int
  trace : List Ev
  deriving DecidableEq

/-- The environment: which calls fail.  Every oracle is asked with the
number of calls traced so far, so an outcome may change over time. -/
structure World where
  munmapOk : Nat → Bool
  acquire : Nat → Int → Acq
  raiseOk : Nat → Bool

/-- How a procedure ends: it returns, or the process is gone through `_exit`. -/
inductive Res
  | ret (s : St)
  | exit (code : Int) (s : St)
  deriving DecidableEq

/-- How a run of `main` over a finite input ends: blocked in `getch` with
the input used up, or terminated. -/
inductive Outcome
  | waiting (s : St)
  | exited (code : Int) (s : St)
  deriving DecidableEq

/-- Where the switch in `main` sends control. -/
inductive Next
  | quit
  | show
  | again
  deriving DecidableEq

/-- The state of an outcome. -/
def Outcome.st : Outcome → St
  | .waiting s => s
  | .exited _ s => s

/-- The state of a result. -/
def Res.st : Res → St
  | .ret s => s
  | .exit _ s => s

/-- Append one call to the trace. -/
def emit (s : St) (e : Ev) : St := { s with trace := s.trace ++ [e] }

/-- The globals at process start (static storage is zeroed; `slidechanged = 1`). -/
def globals : St :=
  { nslides := 0, currentslide := 0, currentslidep := none, currentslidelen := 0,
    slidechanged := 1, trace := [] }

/-! ## Procedures -/

mutual
/-- Embedding of `unloadcurrentslide`: nothing when the pointer is `NULL`,
else `munmap`, and `die` when that fails.  The pointer is not reset. -/
def unloadcurrentslide (w : World) : Nat → St → Option Res
  | 0, _ => none
  | fuel + 1, s =>
    match s.currentslidep with
    | none => some (.ret s)
    | some _ =>
      if w.munmapOk s.trace.length then some (.ret (emit s (.munmap true)))
      else die w fuel (.munmap s.currentslide) true (emit s (.munmap false))
/-- Embedding of `cleanup`: `unloadcurrentslide()` then `endwin()`. -/
def cleanup (w : World) : Nat → St → Option Res
  | 0, _ => none
  | fuel + 1, s =>
    match unloadcurrentslide w fuel s with
    | some (.ret s1) => some (.ret (emit s1 .endwin))
    | other => other
/-- Embedding of `die`: `cleanup()`, then the message on stderr (with the
error text when the saved `errno` is not zero), then `_exit(1)`. -/
def die (w : World) : Nat → Diag → Bool → St → Option Res
  | 0, _, _, _ => none
  | fuel + 1, d, errno, s =>
    match cleanup w fuel s with
    | some (.ret s1) => some (.exit 1 (emit s1 (.stderr d errno)))
    | other => other
end

/-- Embedding of `quit`: `cleanup()` then `_exit(128 + sig)`. -/
def quit (w : World) (fuel : Nat) (sig : Int) (s : St) : Option Res :=
  match cleanup w fuel s with
  | some (.ret s1) => some (.exit (128 + sig) s1)
  | other => other

/-- Embedding of `loadcurrentslide(argv, slide)`. -/
def loadcurrentslide (w : World) (fuel : Nat) (slide : Int) (s : St) : Option Res :=
  match unloadcurrentslide w fuel (emit s (.load slide)) with
  | some (.ret s1) =>
    match w.acquire s1.trace.length slide with
    | .openFail => die w fuel (.openf slide) true (emit s1 (.acquire slide .openFail))
    | .fstatFail => die w fuel (.fstat slide) true (emit s1 (.acquire slide .fstatFail))
    | .mmapFail =>
      die w fuel (.mmap slide) true
        { emit s1 (.acquire slide .mmapFail) with currentslidep := none }
    | .ok bytes =>
      some (.ret { emit s1 (.acquire slide (.ok bytes)) with
        currentslidep := some bytes, currentslidelen := toInt32 bytes.length })
  | other => other

/-- Embedding of the signal handler `reloadcurrentslide`. -/
def reloadcurrentslide (w : World) (fuel : Nat) (sig : Int) (s : St) : Option Res :=
  let s1 := { s with slidechanged := 1 }
  if sig = SIGHUP then
    if w.raiseOk s1.trace.length then some (.ret (emit s1 (.raise SIGWINCH true)))
    else die w fuel .raise true (emit s1 (.raise SIGWINCH false))
  else some (.ret s1)

/-- The three curses calls that close the render step. -/
def draw (s : St) : St :=
  emit (emit (emit s .clear) .refresh) (.printw s.currentslidelen s.currentslidep)

/-- The render step, from label `show:` down to label `again:`. -/
def atShow (w : World) (fuel : Nat) (s : St) : Option Res :=
  if s.slidechanged ≠ 0 then
    match loadcurrentslide w fuel s.currentslide { s with slidechanged := 0 } with
    | some (.ret s1) => some (.ret (draw s1))
    | other => other
  else some (.ret (draw s))

/-- The `switch (c)` of `main`: the new globals and where control goes. -/
def switchKey (s : St) (c : Int) : Next × St :=
  if c ∈ quitKeys then (.quit, s)
  else if c ∈ nextKeys then
    if s.currentslide < s.nslides - 1 then
      (.show, { s with slidechanged := 1, currentslide := s.currentslide + 1 })
    else (.again, s)
  else if c ∈ prevKeys then
    if s.currentslide > 0 then
      (.show, { s with slidechanged := 1, currentslide := s.currentslide - 1 })
    else (.again, s)
  else if c ∈ firstKeys then
    (.show, { s with
      slidechanged := if s.currentslide ≠ 0 then 1 else s.slidechanged,
      currentslide := 0 })
  else if c ∈ lastKeys then
    (.show, { s with
      slidechanged := if s.currentslide ≠ s.nslides - 1 then 1 else s.slidechanged,
      currentslide := s.nslides - 1 })
  else if c ∈ reloadKeys then (.show, s)
  else (.again, s)

/-- The outcome of the run when it ends with the procedure result `r`: the
status is `exitCode` when the procedure returned (then `main` returns), and
the argument of `_exit` when it did not. -/
def finish (exitCode : Int) : Option Res → Option Outcome
  | some (.ret s) => some (.exited exitCode s)
  | some (.exit code s) => some (.exited code s)
  | none => none

/-- The input loop from label `again:`, fed with the keys `getch` returns. -/
def atAgain (w : World) (fuel : Nat) : St → List Int → Option Outcome
  | s, [] => some (.waiting s)
  | s, c :: cs =>
    match switchKey s c with
    | (.quit, s1) => finish 0 (cleanup w fuel s1)
    | (.again, s1) => atAgain w fuel s1 cs
    | (.show, s1) =>
      match atShow w fuel s1 with
      | some (.ret s2) => atAgain w fuel s2 cs
      | other => finish 0 other

/-- The globals when `main` reaches label `show:` for the first time. -/
def started (nfiles : Nat) : St :=
  { globals with
    nslides := nfiles, currentslide := 0, currentslidep := none, currentslidelen := 0,
    trace := [.setsignal, .setlocale, .initscr, .cbreak, .noecho, .nonl, .intrflush,
      .keypad, .curs_set] }

/-- Embedding of `main` for `argc = nfiles + 1`. -/
def main (w : World) (fuel : Nat) (nfiles : Nat) (keys : List Int) : Option Outcome :=
  if nfiles = 0 then finish 0 (die w fuel .usage false globals)
  else
    match atShow w fuel (started nfiles) with
    | some (.ret s) => atAgain w fuel s keys
    | other => finish 0 other

/-- A world in which nothing fails and slide `i` holds the single byte `i`. -/
def calm : World :=
  { munmapOk := fun _ => true, acquire := fun _ i => .ok [i.toNat], raiseOk := fun _ => true }

/-- The state `unloadcurrentslide` returns when its `munmap`, if any, succeeds. -/
def released (s : St) : St :=
  match s.currentslidep with
  | none => s
  | some _ => emit s (.munmap true)

/-- The state a successful `loadcurrentslide` leaves behind for the bytes `b`. -/
def loaded (slide : Int) (b : List Nat) (s : St) : St :=
  { emit (released (emit s (.load slide))) (.acquire slide (.ok b)) with
    currentslidep := some b, currentslidelen := toInt32 b.length }

/-- The index a trace entry hands to `loadcurrentslide`, if it is such a call. -/
def Ev.loadIndex : Ev → Option Int
  | .load i => some i
  | _ => none

/-- The slide and outcome of a trace entry that is an acquisition. -/
def Ev.acquired : Ev → Option (Int × Acq)
  | .acquire i r => some (i, r)
  | _ => none

/-- The indices given to `loadcurrentslide`, in call order. -/
def loadsOf (tr : List Ev) : List Int := tr.filterMap Ev.loadIndex

/-- The acquisitions made, in call order. -/
def acquiresOf (tr : List Ev) : List (Int × Acq) := tr.filterMap Ev.acquired

/-- Index given to the most recent call of `loadcurrentslide`. -/
def lastLoad (tr : List Ev) : Option Int := (loadsOf tr).getLast?

/-- Slide and outcome of the most recent acquisition. -/
def lastAcquire (tr : List Ev) : Option (Int × Acq) := (acquiresOf tr).getLast?

/-- What holds whenever the loop blocks in `getch`: the flag is clear, the
last loader call was for the current index, and the pointer and length are
those of the bytes that call acquired. -/
def Synced (s : St) : Prop :=
  s.slidechanged = 0 ∧ lastLoad s.trace = some s.currentslide ∧
    ∃ b, lastAcquire s.trace = some (s.currentslide, .ok b) ∧
      s.currentslidep = some b ∧ s.currentslidelen = toInt32 b.length

/-- The state after `reloadcurrentslide(SIGHUP)` when `raise` succeeds. -/
def afterReload (s : St) : St := emit { s with slidechanged := 1 } (.raise SIGWINCH true)

/-- The state after a render step that loaded the bytes `b` for the current index. -/
def rendered (b : List Nat) (s : St) : St :=
  draw (loaded s.currentslide b { s with slidechanged := 0 })

/-- The navigation globals of `s2` are those of `s1`. -/
def SameNav (s1 s2 : St) : Prop :=
  s2.nslides = s1.nslides ∧ s2.currentslide = s1.currentslide ∧
    s2.slidechanged = s1.slidechanged

/-- The index is a valid position in the deck. -/
def InDeck (s : St) : Prop := 0 ≤ s.currentslide ∧ s.currentslide ≤ s.nslides - 1

/-- A state with one slide of one byte resident and nothing traced yet. -/
def resident : St :=
  { nslides := 1, currentslide := 0, currentslidep := some [72], currentslidelen := 1,
    slidechanged := 0, trace := [] }

/-- A world whose first call, when it is `munmap`, fails; everything later succeeds. -/
def flaky : World :=
  { munmapOk := fun t => decide (t ≠ 0), acquire := fun _ i => .ok [i.toNat],
    raiseOk := fun _ => true }

/-- A world in which no slide file can be opened; everything else succeeds. -/
def missing : World :=
  { munmapOk := fun _ => true, acquire := fun _ _ => .openFail, raiseOk := fun _ => true }

/-- Whether a trace entry is a call of `printw`. -/
def Ev.isPrintw : Ev → Bool
  | .printw _ _ => true
  | _ => false

/-- A world in which `munmap` fails whenever it is called. -/
def stuck : World :=
  { munmapOk := fun _ => false, acquire := fun _ i => .ok [i.toNat],
    raiseOk := fun _ => true }

/-! ## Frame lemmas -/

theorem SameNav.rfl_ (s : St) : SameNav s s := ⟨rfl, rfl, rfl⟩

theorem SameNav.trans_ {a b c : St} (h1 : SameNav a b) (h2 : SameNav b c) : SameNav a c :=
  ⟨h2.1.trans h1.1, h2.2.1.trans h1.2.1, h2.2.2.trans h1.2.2⟩

theorem sameNav_emit (s : St) (e : Ev) : SameNav s (emit s e) := ⟨rfl, rfl, rfl⟩

theorem die_never_returns (w : World) (fuel : Nat) (d : Diag) (e : Bool) (s s1 : St) :
    die w fuel d e s ≠ some (.ret s1) := by
  cases fuel with
  | zero => simp [die]
  | succ n =>
    simp only [die]
    split <;> simp_all

theorem unload_returns (w : World) (fuel : Nat) (s s1 : St)
    (h : unloadcurrentslide w fuel s = some (.ret s1)) :
    (s.currentslidep = none ∧ s1 = s) ∨
      (s.currentslidep ≠ none ∧ w.munmapOk s.trace.length = true ∧ s1 = emit s (.munmap true)) := by
  cases fuel with
  | zero => simp [unloadcurrentslide] at h
  | succ n =>
    simp only [unloadcurrentslide] at h
    split at h
    · left; simp_all
    · right
      split at h
      · simp_all
      · exact absurd h (die_never_returns _ _ _ _ _ _)

theorem mutual_frame (w : World) (fuel : Nat) :
    (∀ s r, unloadcurrentslide w fuel s = some r → SameNav s r.st) ∧
    (∀ s r, cleanup w fuel s = some r → SameNav s r.st) ∧
    (∀ d e s r, die w fuel d e s = some r → SameNav s r.st) := by
  induction fuel with
  | zero => simp [unloadcurrentslide, cleanup, die]
  | succ n ih =>
    obtain ⟨ihu, ihc, ihd⟩ := ih
    refine ⟨?_, ?_, ?_⟩
    · intro s r h
      simp only [unloadcurrentslide] at h
      split at h
      · cases h; exact SameNav.rfl_ s
      · split at h
        · cases h; exact sameNav_emit s _
        · exact (sameNav_emit s _).trans_ (ihd _ _ _ _ h)
    · intro s r h
      simp only [cleanup] at h
      split at h
      · next s1 hs1 =>
        cases h
        exact (ihu _ _ hs1).trans_ (sameNav_emit s1 _)
      · exact ihu _ _ h
    · intro d e s r h
      simp only [die] at h
      split at h
      · next s1 hs1 =>
        cases h
        exact (ihc _ _ hs1).trans_ (sameNav_emit s1 _)
      · exact ihc _ _ h

/-! ## Runs in which the release succeeds -/

theorem unload_ok (w : World) (fuel : Nat) (s : St)
    (h : s.currentslidep = none ∨ w.munmapOk s.trace.length = true) :
    unloadcurrentslide w (fuel + 1) s = some (.ret (released s)) := by
  simp only [unloadcurrentslide, released]
  split
  · rfl
  · next b hb =>
    rcases h with h | h
    · simp [hb] at h
    · simp [h]

theorem cleanup_ok (w : World) (fuel : Nat) (s : St)
    (h : s.currentslidep = none ∨ w.munmapOk s.trace.length = true) :
    cleanup w (fuel + 2) s = some (.ret (emit (released s) .endwin)) := by
  simp only [cleanup, unload_ok w fuel s h]

theorem die_ok (w : World) (fuel : Nat) (d : Diag) (e : Bool) (s : St)
    (h : s.currentslidep = none ∨ w.munmapOk s.trace.length = true) :
    die w (fuel + 3) d e s = some (.exit 1 (emit (emit (released s) .endwin) (.stderr d e))) := by
  simp only [die, cleanup_ok w fuel s h]

theorem unload_fatal_once (w : World) (fuel : Nat) (s : St)
    (hp : s.currentslidep ≠ none) (h0 : w.munmapOk s.trace.length = false)
    (h1 : w.munmapOk (s.trace.length + 1) = true) :
    unloadcurrentslide w (fuel + 4) s
      = some (.exit 1 { s with trace := s.trace ++
          [.munmap false, .munmap true, .endwin, .stderr (.munmap s.currentslide) true] }) := by
  have hd := die_ok w fuel (.munmap s.currentslide) true (emit s (.munmap false))
    (Or.inr (by simpa [emit] using h1))
  simp only [unloadcurrentslide, h0, hd]
  split
  · next h => exact absurd h hp
  · next b hb =>
    simp [released, emit, hb]

theorem mutual_exit_code (w : World) (fuel : Nat) :
    (∀ s c s1, unloadcurrentslide w fuel s = some (.exit c s1) → c = 1) ∧
    (∀ s c s1, cleanup w fuel s = some (.exit c s1) → c = 1) ∧
    (∀ d e s c s1, die w fuel d e s = some (.exit c s1) → c = 1) := by
  induction fuel with
  | zero => simp [unloadcurrentslide, cleanup, die]
  | succ n ih =>
    obtain ⟨ihu, ihc, ihd⟩ := ih
    refine ⟨?_, ?_, ?_⟩
    · intro s c s1 h
      simp only [unloadcurrentslide] at h
      split at h
      · cases h
      · split at h
        · cases h
        · exact ihd _ _ _ _ _ h
    · intro s c s1 h
      simp only [cleanup] at h
      split at h
      · cases h
      · exact ihu _ _ _ h
    · intro d e s c s1 h
      simp only [die] at h
      split at h
      · cases h; rfl
      · exact ihc _ _ _ h

theorem cleanup_returns (w : World) (fuel : Nat) (s s1 : St)
    (h : cleanup w fuel s = some (.ret s1)) :
    s.currentslidep = none ∨ w.munmapOk s.trace.length = true := by
  cases fuel with
  | zero => simp [cleanup] at h
  | succ n =>
    simp only [cleanup] at h
    split at h
    · next s2 hs2 =>
      rcases unload_returns w n s s2 hs2 with h1 | h1
      · exact Or.inl h1.1
      · exact Or.inr h1.2.1
    · next hne =>
      exact absurd h (hne s1)

theorem mutual_stuck (w : World) (hm : ∀ t, w.munmapOk t = false) (fuel : Nat) :
    ∀ s, s.currentslidep ≠ none →
      unloadcurrentslide w fuel s = none ∧ cleanup w fuel s = none ∧
        ∀ d e, die w fuel d e s = none := by
  induction fuel with
  | zero => intro s _; simp [unloadcurrentslide, cleanup, die]
  | succ n ih =>
    intro s hp
    have hu : unloadcurrentslide w (n + 1) s = none := by
      simp only [unloadcurrentslide]
      split
      · next h => exact absurd h hp
      · rw [hm]
        simpa using (ih (emit s (.munmap false)) (by simpa [emit] using hp)).2.2 _ _
    refine ⟨hu, ?_, ?_⟩
    · simp only [cleanup, (ih s hp).1]
    · intro d e
      simp only [die, (ih s hp).2.1]

theorem load_frame (w : World) (fuel : Nat) (slide : Int) (s : St) (r : Res)
    (h : loadcurrentslide w fuel slide s = some r) : SameNav s r.st := by
  simp only [loadcurrentslide] at h
  split at h
  · next s1 hs1 =>
    have h1 : SameNav s s1 :=
      (sameNav_emit s _).trans_ ((mutual_frame w fuel).1 _ _ hs1)
    split at h
    · exact (h1.trans_ (sameNav_emit s1 _)).trans_ ((mutual_frame w fuel).2.2 _ _ _ _ h)
    · exact (h1.trans_ (sameNav_emit s1 _)).trans_ ((mutual_frame w fuel).2.2 _ _ _ _ h)
    · refine (h1.trans_ ?_).trans_ ((mutual_frame w fuel).2.2 _ _ _ _ h)
      exact ⟨rfl, rfl, rfl⟩
    · cases h
      exact h1.trans_ ⟨rfl, rfl, rfl⟩
  · exact (sameNav_emit s _).trans_ ((mutual_frame w fuel).1 _ _ h)

theorem show_frame (w : World) (fuel : Nat) (s : St) (r : Res)
    (h : atShow w fuel s = some r) :
    r.st.nslides = s.nslides ∧ r.st.currentslide = s.currentslide ∧ r.st.slidechanged = 0 := by
  simp only [atShow] at h
  split at h
  · split at h
    · next s1 hs1 =>
      cases h
      have := load_frame w fuel _ _ _ hs1
      exact ⟨this.1, this.2.1, this.2.2⟩
    · have := load_frame w fuel _ _ _ h
      exact ⟨this.1, this.2.1, this.2.2⟩
  · next hd =>
    cases h
    exact ⟨rfl, rfl, by simpa using hd⟩

theorem switch_inDeck (s : St) (c : Int) (hn : 1 ≤ s.nslides) (hi : InDeck s) :
    InDeck (switchKey s c).2 ∧ (switchKey s c).2.nslides = s.nslides := by
  obtain ⟨h0, h1⟩ := hi
  simp only [switchKey]
  split_ifs <;> refine ⟨⟨?_, ?_⟩, rfl⟩ <;> dsimp only <;> omega

theorem finish_st (code : Int) (r : Option Res) (out : Outcome)
    (h : finish code r = some out) : ∃ r1, r = some r1 ∧ out.st = r1.st := by
  cases r with
  | none => simp [finish] at h
  | some r1 =>
    cases r1 <;> simp only [finish, Option.some.injEq] at h <;> subst h <;> exact ⟨_, rfl, rfl⟩

theorem again_inDeck (w : World) (fuel : Nat) (keys : List Int) :
    ∀ (s : St) (out : Outcome), 1 ≤ s.nslides → InDeck s →
      atAgain w fuel s keys = some out → InDeck out.st ∧ out.st.nslides = s.nslides := by
  induction keys with
  | nil =>
    intro s out _ hi h
    simp only [atAgain, Option.some.injEq] at h
    subst h
    exact ⟨hi, rfl⟩
  | cons c cs ih =>
    intro s out hn hi h
    have hsw := switch_inDeck s c hn hi
    simp only [atAgain] at h
    split at h
    · next s1 hk =>
      rw [hk] at hsw
      obtain ⟨r1, hr1, ho⟩ := finish_st _ _ _ h
      have hf := (mutual_frame w fuel).2.1 _ _ hr1
      simp only [InDeck, ho, hf.1, hf.2.1]
      exact ⟨hsw.1, hsw.2⟩
    · next s1 hk =>
      rw [hk] at hsw
      have := ih s1 out (by rw [hsw.2]; exact hn) hsw.1 h
      exact ⟨this.1, this.2.trans hsw.2⟩
    · next s1 hk =>
      rw [hk] at hsw
      split at h
      · next s2 hs2 =>
        have hf := show_frame w fuel _ _ hs2
        simp only [Res.st] at hf
        have hi2 : InDeck s2 := by
          simp only [InDeck, hf.1, hf.2.1]
          exact hsw.1
        have := ih s2 out (by rw [hf.1, hsw.2]; exact hn) hi2 h
        exact ⟨this.1, this.2.trans (hf.1.trans hsw.2)⟩
      · obtain ⟨r1, hr1, ho⟩ := finish_st _ _ _ h
        have hf := show_frame w fuel _ _ hr1
        simp only [InDeck, ho, hf.1, hf.2.1]
        exact ⟨hsw.1, hsw.2⟩

theorem load_total (w : World) (hm : ∀ t, w.munmapOk t = true) (fuel : Nat) (slide : Int)
    (s : St) : ∃ r, loadcurrentslide w (fuel + 3) slide s = some r := by
  simp only [loadcurrentslide, unload_ok w (fuel + 2) _ (Or.inr (hm _))]
  split
  · exact ⟨_, die_ok w fuel _ _ _ (Or.inr (hm _))⟩
  · exact ⟨_, die_ok w fuel _ _ _ (Or.inr (hm _))⟩
  · exact ⟨_, die_ok w fuel _ _ _ (Or.inr (hm _))⟩
  · exact ⟨_, rfl⟩

theorem show_total (w : World) (hm : ∀ t, w.munmapOk t = true) (fuel : Nat) (s : St) :
    ∃ r, atShow w (fuel + 3) s = some r := by
  simp only [atShow]
  split
  · obtain ⟨r, hr⟩ := load_total w hm fuel s.currentslide { s with slidechanged := 0 }
    rw [hr]
    cases r <;> exact ⟨_, rfl⟩
  · exact ⟨_, rfl⟩

theorem again_total (w : World) (hm : ∀ t, w.munmapOk t = true) (fuel : Nat)
    (keys : List Int) : ∀ s, ∃ out, atAgain w (fuel + 3) s keys = some out := by
  induction keys with
  | nil => intro s; exact ⟨_, rfl⟩
  | cons c cs ih =>
    intro s
    simp only [atAgain]
    split
    · rw [cleanup_ok w (fuel + 1) _ (Or.inr (hm _))]
      exact ⟨_, rfl⟩
    · exact ih _
    · next s1 _ =>
      obtain ⟨r, hr⟩ := show_total w hm fuel s1
      rw [hr]
      cases r
      · exact ih _
      · exact ⟨_, rfl⟩

theorem main_total (w : World) (hm : ∀ t, w.munmapOk t = true) (fuel nfiles : Nat)
    (keys : List Int) : ∃ out, main w (fuel + 3) nfiles keys = some out := by
  simp only [main]
  split
  · rw [die_ok w fuel _ _ _ (Or.inr (hm _))]
    exact ⟨_, rfl⟩
  · obtain ⟨r, hr⟩ := show_total w hm fuel (started nfiles)
    rw [hr]
    cases r
    · exact again_total w hm fuel keys _
    · exact ⟨_, rfl⟩

/-! ## What a render step adds to the trace -/

theorem loadsOf_append (a b : List Ev) : loadsOf (a ++ b) = loadsOf a ++ loadsOf b := by
  simp [loadsOf]

theorem mutual_no_load (w : World) (fuel : Nat) :
    (∀ s r, unloadcurrentslide w fuel s = some r →
      ∃ ev, r.st.trace = s.trace ++ ev ∧ loadsOf ev = []) ∧
    (∀ s r, cleanup w fuel s = some r →
      ∃ ev, r.st.trace = s.trace ++ ev ∧ loadsOf ev = []) ∧
    (∀ d e s r, die w fuel d e s = some r →
      ∃ ev, r.st.trace = s.trace ++ ev ∧ loadsOf ev = []) := by
  induction fuel with
  | zero => simp [unloadcurrentslide, cleanup, die]
  | succ n ih =>
    obtain ⟨ihu, ihc, ihd⟩ := ih
    refine ⟨?_, ?_, ?_⟩
    · intro s r h
      simp only [unloadcurrentslide] at h
      split at h
      · cases h; exact ⟨[], by simp [Res.st], rfl⟩
      · split at h
        · cases h; exact ⟨[.munmap true], rfl, rfl⟩
        · obtain ⟨ev, he, hl⟩ := ihd _ _ _ _ h
          refine ⟨.munmap false :: ev, ?_, ?_⟩
          · rw [he]; simp [emit]
          · rw [← List.singleton_append, loadsOf_append, hl]; rfl
    · intro s r h
      simp only [cleanup] at h
      split at h
      · next s1 hs1 =>
        cases h
        obtain ⟨ev, he, hl⟩ := ihu _ _ hs1
        refine ⟨ev ++ [.endwin], ?_, ?_⟩
        · simp only [Res.st] at he
          simp [Res.st, emit, he]
        · rw [loadsOf_append, hl]; rfl
      · exact ihu _ _ h
    · intro d e s r h
      simp only [die] at h
      split at h
      · next s1 hs1 =>
        cases h
        obtain ⟨ev, he, hl⟩ := ihc _ _ hs1
        refine ⟨ev ++ [.stderr d e], ?_, ?_⟩
        · simp only [Res.st] at he
          simp [Res.st, emit, he]
        · rw [loadsOf_append, hl]; rfl
      · exact ihc _ _ h

theorem load_trace (w : World) (fuel : Nat) (slide : Int) (s : St) (r : Res)
    (h : loadcurrentslide w fuel slide s = some r) :
    ∃ ev, r.st.trace = s.trace ++ .load slide :: ev ∧ loadsOf ev = [] := by
  simp only [loadcurrentslide] at h
  split at h
  · next s1 hs1 =>
    obtain ⟨ev1, he1, hl1⟩ := (mutual_no_load w fuel).1 _ _ hs1
    simp only [Res.st, emit] at he1
    split at h
    · obtain ⟨ev, he, hl⟩ := (mutual_no_load w fuel).2.2 _ _ _ _ h
      refine ⟨ev1 ++ .acquire slide .openFail :: ev, ?_, ?_⟩
      · rw [he]; simp [emit, he1]
      · rw [loadsOf_append, hl1, ← List.singleton_append, loadsOf_append, hl]; rfl
    · obtain ⟨ev, he, hl⟩ := (mutual_no_load w fuel).2.2 _ _ _ _ h
      refine ⟨ev1 ++ .acquire slide .fstatFail :: ev, ?_, ?_⟩
      · rw [he]; simp [emit, he1]
      · rw [loadsOf_append, hl1, ← List.singleton_append, loadsOf_append, hl]; rfl
    · obtain ⟨ev, he, hl⟩ := (mutual_no_load w fuel).2.2 _ _ _ _ h
      refine ⟨ev1 ++ .acquire slide .mmapFail :: ev, ?_, ?_⟩
      · rw [he]; simp [emit, he1]
      · rw [loadsOf_append, hl1, ← List.singleton_append, loadsOf_append, hl]; rfl
    · next b _ =>
      cases h
      refine ⟨ev1 ++ [.acquire slide (.ok b)], ?_, ?_⟩
      · simp [Res.st, emit, he1]
      · rw [loadsOf_append, hl1]; rfl
  · obtain ⟨ev, he, hl⟩ := (mutual_no_load w fuel).1 _ _ h
    exact ⟨ev, by simpa [emit] using he, hl⟩

theorem show_trace (w : World) (fuel : Nat) (s : St) (r : Res)
    (h : atShow w fuel s = some r) :
    ∃ ev, r.st.trace = s.trace ++ ev ∧
      loadsOf ev = if s.slidechanged ≠ 0 then [s.currentslide] else [] := by
  simp only [atShow] at h
  split at h
  · next hd =>
    rw [if_pos hd]
    split at h
    · next s1 hs1 =>
      cases h
      obtain ⟨ev, he, hl⟩ := load_trace w fuel _ _ _ hs1
      simp only [Res.st] at he
      refine ⟨.load s.currentslide :: ev ++
        [.clear, .refresh, .printw s1.currentslidelen s1.currentslidep], ?_, ?_⟩
      · simp [Res.st, draw, emit, he]
      · rw [loadsOf_append, ← List.singleton_append, loadsOf_append, hl]; rfl
    · obtain ⟨ev, he, hl⟩ := load_trace w fuel _ _ _ h
      refine ⟨.load s.currentslide :: ev, he, ?_⟩
      rw [← List.singleton_append, loadsOf_append, hl]; rfl
  · next hd =>
    cases h
    rw [if_neg hd]
    exact ⟨[.clear, .refresh, .printw s.currentslidelen s.currentslidep],
      by simp [Res.st, draw, emit], rfl⟩

theorem load_returns (w : World) (fuel : Nat) (slide : Int) (s s1 : St)
    (h : loadcurrentslide w fuel slide s = some (.ret s1)) :
    ∃ b, w.acquire (released (emit s (.load slide))).trace.length slide = .ok b ∧
      s1 = loaded slide b s := by
  simp only [loadcurrentslide] at h
  split at h
  · next s2 hs2 =>
    have hrel : s2 = released (emit s (.load slide)) := by
      rcases unload_returns w fuel _ _ hs2 with ⟨hp, he⟩ | ⟨hp, _, he⟩
      · rw [he]; simp only [released, hp]
      · rw [he]
        simp only [released]
        split
        · next hn => exact absurd hn hp
        · rfl
    subst hrel
    split at h
    · exact absurd h (die_never_returns _ _ _ _ _ _)
    · exact absurd h (die_never_returns _ _ _ _ _ _)
    · exact absurd h (die_never_returns _ _ _ _ _ _)
    · next b hb =>
      cases h
      exact ⟨b, hb, rfl⟩
  · next hne =>
    rcases hu : unloadcurrentslide w fuel (emit s (.load slide)) with _ | r
    · rw [hu] at h; cases h
    · cases r with
      | ret s2 => exact absurd hu (hne s2)
      | exit c s2 => rw [hu] at h; cases h

theorem released_trace_flag (s : St) (e : Ev) (v : Int) :
    (released (emit { s with slidechanged := v } e)).trace = (released (emit s e)).trace := by
  simp only [released, emit]
  split <;> rfl

theorem rendered_currentslide (b : List Nat) (s : St) :
    (rendered b s).currentslide = s.currentslide := by
  simp only [rendered, draw, loaded, released, emit]
  split <;> rfl

theorem rendered_currentslidep (b : List Nat) (s : St) :
    (rendered b s).currentslidep = some b := by
  simp only [rendered, draw, loaded, released, emit]

theorem rendered_trace (b : List Nat) (s : St) :
    (rendered b s).trace
      = (released (emit s (.load s.currentslide))).trace ++
          [.acquire s.currentslide (.ok b), .clear, .refresh,
           .printw (toInt32 b.length) (some b)] := by
  simp only [rendered, draw, loaded, released, emit]
  split <;> simp

theorem show_returns (w : World) (fuel : Nat) (s s2 : St)
    (h : atShow w fuel s = some (.ret s2)) :
    (s.slidechanged ≠ 0 ∧ ∃ b,
        w.acquire (released (emit s (.load s.currentslide))).trace.length s.currentslide
          = .ok b ∧ s2 = rendered b s) ∨
      (s.slidechanged = 0 ∧ s2 = draw s) := by
  simp only [atShow] at h
  split at h
  · next hd =>
    left
    refine ⟨hd, ?_⟩
    split at h
    · next s1 hs1 =>
      cases h
      obtain ⟨b, hb, hl⟩ := load_returns w fuel _ _ _ hs1
      rw [released_trace_flag] at hb
      exact ⟨b, hb, by rw [hl]; rfl⟩
    · next hne =>
      rcases hu : loadcurrentslide w fuel s.currentslide { s with slidechanged := 0 } with _ | r
      · rw [hu] at h; cases h
      · cases r with
        | ret s3 => exact absurd hu (hne s3)
        | exit c s3 => rw [hu] at h; cases h
  · next hd =>
    right
    cases h
    exact ⟨by simpa using hd, rfl⟩

theorem show_ok (w : World) (fuel : Nat) (s : St) (b : List Nat)
    (hd : s.slidechanged ≠ 0)
    (hu : s.currentslidep = none ∨ w.munmapOk (s.trace.length + 1) = true)
    (hb : w.acquire (released (emit s (.load s.currentslide))).trace.length s.currentslide
      = .ok b) :
    atShow w (fuel + 1) s = some (.ret (rendered b s)) := by
  have h1 : unloadcurrentslide w (fuel + 1) (emit { s with slidechanged := 0 } (.load s.currentslide))
      = some (.ret (released (emit { s with slidechanged := 0 } (.load s.currentslide)))) := by
    apply unload_ok
    rcases hu with hu | hu
    · exact Or.inl hu
    · right; simpa [emit] using hu
  simp only [atShow, hd, ne_eq, not_false_eq_true, if_true, loadcurrentslide, h1,
    released_trace_flag, hb]
  rfl

/-! ## The loop invariant at `getch` -/

theorem synced_rendered (b : List Nat) (s : St) : Synced (rendered b s) := by
  refine ⟨?_, ?_, b, ?_, ?_, ?_⟩
  · simp only [rendered, draw, loaded, released, emit]
    split <;> rfl
  · simp only [rendered, draw, loaded, released, emit, lastLoad, loadsOf]
    split <;> simp [Ev.loadIndex, List.filterMap_append]
  · simp only [rendered, draw, loaded, released, emit, lastAcquire, acquiresOf]
    split <;> simp [Ev.acquired, List.filterMap_append]
  · simp only [rendered, draw, loaded, released, emit]
  · simp only [rendered, draw, loaded, released, emit]

theorem synced_draw (s : St) (h : Synced s) : Synced (draw s) := by
  obtain ⟨h0, h1, b, h2, h3, h4⟩ := h
  refine ⟨h0, ?_, b, ?_, h3, h4⟩
  · simp only [lastLoad, loadsOf] at h1
    simp [draw, emit, lastLoad, loadsOf, Ev.loadIndex, List.filterMap_append, h1]
  · simp only [lastAcquire, acquiresOf] at h2
    simp [draw, emit, lastAcquire, acquiresOf, Ev.acquired, List.filterMap_append, h2]

theorem switch_again (s s1 : St) (c : Int) (h : switchKey s c = (.again, s1)) : s1 = s := by
  simp only [switchKey] at h
  split_ifs at h <;> simp_all

theorem switch_show (s s1 : St) (c : Int) (hd : s.slidechanged = 0)
    (h : switchKey s c = (.show, s1)) : s1.slidechanged ≠ 0 ∨ s1 = s := by
  simp only [switchKey] at h
  split_ifs at h <;>
    simp only [Prod.mk.injEq, true_and, reduceCtorEq, false_and] at h <;> subst h
  all_goals first
    | exact Or.inr rfl
    | (left; simp; done)
    | (right; cases s; simp_all)

theorem again_synced (w : World) (fuel : Nat) (keys : List Int) :
    ∀ s s1, Synced s → atAgain w fuel s keys = some (.waiting s1) → Synced s1 := by
  induction keys with
  | nil =>
    intro s s1 hs h
    simp only [atAgain, Option.some.injEq, Outcome.waiting.injEq] at h
    exact h ▸ hs
  | cons c cs ih =>
    intro s s1 hs h
    simp only [atAgain] at h
    split at h
    · rcases hc : cleanup w fuel _ with _ | r
      · rw [hc] at h; simp [finish] at h
      · rw [hc] at h; cases r <;> simp [finish] at h
    · next s2 hk =>
      rw [switch_again s s2 c hk] at h
      exact ih _ _ hs h
    · next s2 hk =>
      split at h
      · next s3 hs3 =>
        refine ih s3 s1 ?_ h
        rcases show_returns w fuel _ _ hs3 with ⟨_, b, _, he⟩ | ⟨hd, he⟩
        · rw [he]; exact synced_rendered b s2
        · rcases switch_show s s2 c hs.1 hk with h2 | h2
          · exact absurd hd h2
          · rw [he, h2]; exact synced_draw s hs
      · next hne =>
        rcases hr : atShow w fuel s2 with _ | r
        · rw [hr] at h; simp [finish] at h
        · rw [hr] at h; cases r <;> simp [finish] at h

theorem show_progress (w : World) (fuel : Nat) (s : St)
    (ha : ∀ t i, ∃ b, w.acquire t i = .ok b) (hm : ∀ t, w.munmapOk t = true) :
    ∃ s1, atShow w (fuel + 1) s = some (.ret s1) := by
  by_cases hd : s.slidechanged = 0
  · exact ⟨draw s, by simp [atShow, hd]⟩
  · obtain ⟨b, hb⟩ := ha (released (emit s (.load s.currentslide))).trace.length s.currentslide
    exact ⟨_, show_ok w fuel s b hd (Or.inr (hm _)) hb⟩

theorem again_progress (w : World) (fuel : Nat) (keys : List Int)
    (ha : ∀ t i, ∃ b, w.acquire t i = .ok b) (hm : ∀ t, w.munmapOk t = true) :
    (∀ c ∈ keys, c ∉ quitKeys) → ∀ s, ∃ s1, atAgain w (fuel + 1) s keys = some (.waiting s1) := by
  induction keys with
  | nil => intro _ s; exact ⟨s, rfl⟩
  | cons c cs ih =>
    intro hk s
    have hq : c ∉ quitKeys := hk c (List.mem_cons_self _ _)
    have ih1 := ih (fun c1 hc1 => hk c1 (List.mem_cons_of_mem _ hc1))
    simp only [atAgain]
    split
    · next s1 hs1 =>
      simp only [switchKey, if_neg hq] at hs1
      split_ifs at hs1 <;> simp at hs1
    · exact ih1 _
    · next s1 _ =>
      obtain ⟨s2, hs2⟩ := show_progress w fuel s1 ha hm
      rw [hs2]
      exact ih1 _

/-! ## Signals and fatal errors -/

/-- C8 (amended): for every state and signal number, when nothing is resident
or the `munmap` of the resident content succeeds, `quit(sig)` releases the
content, calls `endwin`, and ends the process through `_exit(128 + sig)`
without returning; for SIGINT, SIGQUIT and SIGTERM that argument is the exit
status itself. -/
theorem quit_exits_with_signal_status (w : World) (fuel : Nat) (sig : Int) (s : St)
    (h : s.currentslidep = none ∨ w.munmapOk s.trace.length = true) :
    quit w (fuel + 2) sig s = some (.exit (128 + sig) (emit (released s) .endwin)) ∧
      (sig ∈ [SIGINT, SIGQUIT, SIGTERM] → exitStatus (128 + sig) = 128 + sig) := by
  refine ⟨?_, ?_⟩
  · simp only [quit, cleanup_ok w fuel s h]
  · intro hs
    simp only [List.mem_cons, List.mem_singleton, List.not_mem_nil, or_false] at hs
    rcases hs with rfl | rfl | rfl <;> decide

/-- Witness for C8: SIGINT with one slide resident and a `munmap` that succeeds. -/
theorem quit_exits_with_signal_status_witness :
    (resident.currentslidep = none ∨ calm.munmapOk resident.trace.length = true) ∧
      (quit calm (0 + 2) SIGINT resident
          = some (.exit (128 + SIGINT) (emit (released resident) .endwin)) ∧
        (SIGINT ∈ [SIGINT, SIGQUIT, SIGTERM] → exitStatus (128 + SIGINT) = 128 + SIGINT)) :=
  ⟨Or.inr rfl, quit_exits_with_signal_status calm 0 SIGINT resident (Or.inr rfl)⟩

/-- Counterexample to C8 as stated: with content resident and a `munmap` that
fails once, `quit(SIGINT)` ends the process through `die` with status 1, and
for no call-depth budget does it end with status `128 + SIGINT`. -/
theorem quit_status_one_when_munmap_fails :
    quit flaky 5 SIGINT resident
        = some (.exit 1 { resident with
            trace := [.munmap false, .munmap true, .endwin, .stderr (.munmap 0) true] }) ∧
      ∀ fuel s1, quit flaky fuel SIGINT resident ≠ some (.exit (128 + SIGINT) s1) := by
  refine ⟨by decide, ?_⟩
  intro fuel s1 h
  simp only [quit] at h
  split at h
  · next s2 hs2 =>
    rcases cleanup_returns flaky fuel resident s2 hs2 with h1 | h1
    · exact absurd h1 (by decide)
    · exact absurd h1 (by decide)
  · have := (mutual_exit_code flaky fuel).2.1 _ _ _ h
    exact absurd this (by decide)

/-- C9 (amended): started without slide files (`argc = 1`), `main` calls no
terminal initialisation, but `die` runs `cleanup()`, so `endwin` is called
once (nothing is unmapped); then the usage message goes to stderr without
error text and the process ends with status 1. -/
theorem usage_error_calls_endwin_then_exits_one (w : World) (fuel : Nat) (keys : List Int) :
    main w (fuel + 3) 0 keys
      = some (.exited 1 { globals with trace := [.endwin, .stderr .usage false] }) := by
  simp only [main, if_true, die_ok w fuel .usage false globals (Or.inl rfl)]
  rfl

/-- Counterexample to C9 as stated: the run without slide files ends with
status 1 and its trace contains a call of `endwin`. -/
theorem usage_path_reaches_endwin :
    ∃ s, main calm 3 0 [] = some (.exited 1 s) ∧ Ev.endwin ∈ s.trace :=
  ⟨{ globals with trace := [.endwin, .stderr .usage false] }, by decide, by decide⟩

/-- C10 (failing case): with content resident and a `munmap` that fails on
every attempt, none of `unloadcurrentslide`, `cleanup`, `quit` and
`loadcurrentslide` ends within any call-depth budget: `die` re-enters
`cleanup` and never reaches its message or `_exit(1)`. -/
theorem persistent_munmap_failure_never_exits (w : World) (fuel : Nat) (s : St)
    (hm : ∀ t, w.munmapOk t = false) (hp : s.currentslidep ≠ none) :
    unloadcurrentslide w fuel s = none ∧ cleanup w fuel s = none ∧
      (∀ sig, quit w fuel sig s = none) ∧
      (∀ slide, loadcurrentslide w fuel slide s = none) := by
  have h := mutual_stuck w hm fuel
  refine ⟨(h s hp).1, (h s hp).2.1, ?_, ?_⟩
  · intro sig
    simp only [quit, (h s hp).2.1]
  · intro slide
    simp only [loadcurrentslide, (h (emit s (.load slide)) (by simpa [emit] using hp)).1]

/-- Witness for C10: one slide resident, `munmap` always failing, budget 7. -/
theorem persistent_munmap_failure_never_exits_witness :
    (∀ t, stuck.munmapOk t = false) ∧ resident.currentslidep ≠ none ∧
      (unloadcurrentslide stuck 7 resident = none ∧ cleanup stuck 7 resident = none ∧
        (∀ sig, quit stuck 7 sig resident = none) ∧
        (∀ slide, loadcurrentslide stuck 7 slide resident = none)) :=
  ⟨fun _ => rfl, by decide,
    persistent_munmap_failure_never_exits stuck 7 resident (fun _ => rfl) (by decide)⟩

/-! ## Navigation keys -/

/-- C2: for a "next" key, when `currentslide < nslides - 1` the switch adds
one to the index, sets `slidechanged` and jumps to `show:` (the loop goes on
from the result of the render step); otherwise the globals are untouched
and the loop reads the following key with no render step in between. -/
theorem next_key_advances_or_waits (w : World) (fuel : Nat) (s : St) (c : Int)
    (cs : List Int) (hc : c ∈ nextKeys) :
    (s.currentslide < s.nslides - 1 →
      switchKey s c
          = (.show, { s with slidechanged := 1, currentslide := s.currentslide + 1 }) ∧
        atAgain w fuel s (c :: cs)
          = match atShow w fuel
              { s with slidechanged := 1, currentslide := s.currentslide + 1 } with
            | some (.ret s2) => atAgain w fuel s2 cs
            | other => finish 0 other) ∧
    (¬ s.currentslide < s.nslides - 1 →
      switchKey s c = (.again, s) ∧ atAgain w fuel s (c :: cs) = atAgain w fuel s cs) := by
  have hq : c ∉ quitKeys := by
    simp only [nextKeys, List.mem_cons, List.mem_singleton, List.not_mem_nil, or_false] at hc
    rcases hc with rfl | rfl | rfl | rfl | rfl | rfl <;> decide
  constructor
  · intro h
    have hk : switchKey s c
        = (.show, { s with slidechanged := 1, currentslide := s.currentslide + 1 }) := by
      simp only [switchKey, if_neg hq, if_pos hc, if_pos h]
    exact ⟨hk, by simp only [atAgain, hk]⟩
  · intro h
    have hk : switchKey s c = (.again, s) := by
      simp only [switchKey, if_neg hq, if_pos hc, if_neg h]
    exact ⟨hk, by simp only [atAgain, hk]⟩

/-- Witness for C2: the space key on the first of two slides, and on the last. -/
theorem next_key_advances_or_waits_witness :
    (32 : Int) ∈ nextKeys ∧
      switchKey { resident with nslides := 2 } 32
        = (.show, { resident with nslides := 2, slidechanged := 1, currentslide := 1 }) ∧
      switchKey resident 32 = (.again, resident) :=
  ⟨by decide,
    ((next_key_advances_or_waits calm 3 { resident with nslides := 2 } 32 []
      (by decide)).1 (by decide)).1,
    ((next_key_advances_or_waits calm 3 resident 32 [] (by decide)).2 (by decide)).1⟩

/-- C3: for a "previous" key, when `currentslide > 0` the switch subtracts
one from the index, sets `slidechanged` and jumps to `show:`; otherwise the
globals are untouched and the loop reads the following key with no render
step in between. -/
theorem prev_key_retreats_or_waits (w : World) (fuel : Nat) (s : St) (c : Int)
    (cs : List Int) (hc : c ∈ prevKeys) :
    (s.currentslide > 0 →
      switchKey s c
          = (.show, { s with slidechanged := 1, currentslide := s.currentslide - 1 }) ∧
        atAgain w fuel s (c :: cs)
          = match atShow w fuel
              { s with slidechanged := 1, currentslide := s.currentslide - 1 } with
            | some (.ret s2) => atAgain w fuel s2 cs
            | other => finish 0 other) ∧
    (¬ s.currentslide > 0 →
      switchKey s c = (.again, s) ∧ atAgain w fuel s (c :: cs) = atAgain w fuel s cs) := by
  have hq : c ∉ quitKeys ∧ c ∉ nextKeys := by
    simp only [prevKeys, List.mem_cons, List.mem_singleton, List.not_mem_nil, or_false] at hc
    rcases hc with rfl | rfl | rfl | rfl | rfl <;> decide
  constructor
  · intro h
    have hk : switchKey s c
        = (.show, { s with slidechanged := 1, currentslide := s.currentslide - 1 }) := by
      simp only [switchKey, if_neg hq.1, if_neg hq.2, if_pos hc, if_pos h]
    exact ⟨hk, by simp only [atAgain, hk]⟩
  · intro h
    have hk : switchKey s c = (.again, s) := by
      simp only [switchKey, if_neg hq.1, if_neg hq.2, if_pos hc, if_neg h]
    exact ⟨hk, by simp only [atAgain, hk]⟩

/-- Witness for C3: the key `h` on the second of two slides, and on the first. -/
theorem prev_key_retreats_or_waits_witness :
    (104 : Int) ∈ prevKeys ∧
      switchKey { resident with nslides := 2, currentslide := 1 } 104
        = (.show, { resident with nslides := 2, slidechanged := 1, currentslide := 0 }) ∧
      switchKey resident 104 = (.again, resident) :=
  ⟨by decide,
    ((prev_key_retreats_or_waits calm 3 { resident with nslides := 2, currentslide := 1 }
      104 [] (by decide)).1 (by decide)).1,
    ((prev_key_retreats_or_waits calm 3 resident 104 [] (by decide)).2 (by decide)).1⟩

/-- C4: a "first" key sets the index to 0 and a "last" key sets it to
`nslides - 1`; `slidechanged` becomes 1 when the index differed from the
target and keeps its value otherwise; control always jumps to `show:`.
Pressed at the target with `slidechanged = 0`, the key makes the loop go on
from `draw s`: the render step runs its three curses calls and calls no
loader.  In the 3-slide deck, `KEY_END` twice leaves the index at 2 both
times and the second press adds only `clear`, `refresh`, `printw`. -/
theorem jump_keys_set_target_and_redraw (w : World) (fuel : Nat) (s : St) (c : Int)
    (cs : List Int) :
    (c ∈ firstKeys →
      switchKey s c = (.show, { s with
        slidechanged := if s.currentslide ≠ 0 then 1 else s.slidechanged,
        currentslide := 0 })) ∧
    (c ∈ lastKeys →
      switchKey s c = (.show, { s with
        slidechanged := if s.currentslide ≠ s.nslides - 1 then 1 else s.slidechanged,
        currentslide := s.nslides - 1 })) ∧
    (c ∈ firstKeys → s.currentslide = 0 → s.slidechanged = 0 →
      atAgain w fuel s (c :: cs) = atAgain w fuel (draw s) cs) ∧
    (c ∈ lastKeys → s.currentslide = s.nslides - 1 → s.slidechanged = 0 →
      atAgain w fuel s (c :: cs) = atAgain w fuel (draw s) cs) ∧
    main calm 3 3 [KEY_END]
      = some (.waiting {
          nslides := 3, currentslide := 2, currentslidep := some [2],
          currentslidelen := 1, slidechanged := 0,
          trace := (started 3).trace ++
            [.load 0, .acquire 0 (.ok [0]), .clear, .refresh, .printw 1 (some [0]),
             .load 2, .munmap true, .acquire 2 (.ok [2]), .clear, .refresh,
             .printw 1 (some [2])] }) ∧
    main calm 3 3 [KEY_END, KEY_END]
      = some (.waiting {
          nslides := 3, currentslide := 2, currentslidep := some [2],
          currentslidelen := 1, slidechanged := 0,
          trace := (started 3).trace ++
            [.load 0, .acquire 0 (.ok [0]), .clear, .refresh, .printw 1 (some [0]),
             .load 2, .munmap true, .acquire 2 (.ok [2]), .clear, .refresh,
             .printw 1 (some [2]),
             .clear, .refresh, .printw 1 (some [2])] }) := by
  have hfirst : c ∈ firstKeys →
      switchKey s c = (.show, { s with
        slidechanged := if s.currentslide ≠ 0 then 1 else s.slidechanged,
        currentslide := 0 }) := by
    intro hc
    have hq : c ∉ quitKeys ∧ c ∉ nextKeys ∧ c ∉ prevKeys := by
      simp only [firstKeys, List.mem_cons, List.mem_singleton, List.not_mem_nil,
        or_false] at hc
      rcases hc with rfl | rfl | rfl | rfl <;> decide
    simp only [switchKey, if_neg hq.1, if_neg hq.2.1, if_neg hq.2.2, if_pos hc]
  have hlast : c ∈ lastKeys →
      switchKey s c = (.show, { s with
        slidechanged := if s.currentslide ≠ s.nslides - 1 then 1 else s.slidechanged,
        currentslide := s.nslides - 1 }) := by
    intro hc
    have hq : c ∉ quitKeys ∧ c ∉ nextKeys ∧ c ∉ prevKeys ∧ c ∉ firstKeys := by
      simp only [lastKeys, List.mem_cons, List.mem_singleton, List.not_mem_nil,
        or_false] at hc
      rcases hc with rfl | rfl <;> decide
    simp only [switchKey, if_neg hq.1, if_neg hq.2.1, if_neg hq.2.2.1, if_neg hq.2.2.2,
      if_pos hc]
  refine ⟨hfirst, hlast, ?_, ?_, by decide, by decide⟩
  · intro hc h0 hd
    have hs : ({ s with
        slidechanged := if s.currentslide ≠ 0 then 1 else s.slidechanged,
        currentslide := 0 } : St) = s := by
      cases s
      simp_all
    have hk : switchKey s c = (.show, s) := by rw [hfirst hc, hs]
    have hr : atShow w fuel s = some (.ret (draw s)) := by
      simp only [atShow, hd, ne_eq, not_true_eq_false, if_false]
    simp only [atAgain, hk, hr]
  · intro hc h0 hd
    have hs : ({ s with
        slidechanged := if s.currentslide ≠ s.nslides - 1 then 1 else s.slidechanged,
        currentslide := s.nslides - 1 } : St) = s := by
      cases s
      simp_all
    have hk : switchKey s c = (.show, s) := by rw [hlast hc, hs]
    have hr : atShow w fuel s = some (.ret (draw s)) := by
      simp only [atShow, hd, ne_eq, not_true_eq_false, if_false]
    simp only [atAgain, hk, hr]

/-- Witness for C4: `KEY_HOME` on slide 1 of 2, and `KEY_END` on the only slide. -/
theorem jump_keys_set_target_and_redraw_witness :
    KEY_HOME ∈ firstKeys ∧ KEY_END ∈ lastKeys ∧
      switchKey { resident with nslides := 2, currentslide := 1 } KEY_HOME
        = (.show, { resident with nslides := 2, slidechanged := 1, currentslide := 0 }) ∧
      atAgain calm 3 resident [KEY_END] = atAgain calm 3 (draw resident) [] :=
  ⟨by decide, by decide,
    (jump_keys_set_target_and_redraw calm 3 { resident with nslides := 2, currentslide := 1 }
      KEY_HOME []).1 (by decide),
    (jump_keys_set_target_and_redraw calm 3 resident KEY_END []).2.2.2.1
      (by decide) (by decide) (by decide)⟩

/-! ## Invariants of the run -/

/-- C1: with at least one slide file, the switch keeps a valid index valid
for every key code; every run of `main` from `currentslide = 0` over any
finite sequence of key codes ends, blocked or terminated, with
`0 ≤ currentslide ≤ nslides - 1` and `nslides` the number of files; and when
`munmap` does not fail the run does end. -/
theorem index_stays_in_deck (w : World) (fuel nfiles : Nat) (keys : List Int)
    (hn : 1 ≤ nfiles) :
    (∀ (s : St) (c : Int), s.nslides = nfiles → InDeck s →
      InDeck (switchKey s c).2 ∧ (switchKey s c).2.nslides = nfiles) ∧
    (∀ out, main w fuel nfiles keys = some out →
      out.st.nslides = nfiles ∧ 0 ≤ out.st.currentslide ∧
        out.st.currentslide ≤ (nfiles : Int) - 1) ∧
    ((∀ t, w.munmapOk t = true) → ∃ out, main w (fuel + 3) nfiles keys = some out) := by
  have hn1 : (1 : Int) ≤ (nfiles : Int) := by exact_mod_cast hn
  refine ⟨?_, ?_, fun hm => main_total w hm fuel nfiles keys⟩
  · intro s c hs hi
    have := switch_inDeck s c (by rw [hs]; exact hn1) hi
    exact ⟨this.1, this.2.trans hs⟩
  · intro out h
    have h0 : nfiles ≠ 0 := by omega
    have hst : InDeck (started nfiles) := by
      simp only [InDeck, started]
      omega
    simp only [main, if_neg h0] at h
    split at h
    · next s hs =>
      have hf := show_frame w fuel _ _ hs
      simp only [Res.st] at hf
      have hi : InDeck s := by
        simp only [InDeck, hf.1, hf.2.1]
        exact hst
      have hns : s.nslides = nfiles := hf.1
      have := again_inDeck w fuel keys s out (by rw [hns]; exact hn1) hi h
      refine ⟨this.2.trans hns, this.1.1, ?_⟩
      have h2 := this.1.2
      rw [this.2, hns] at h2
      exact h2
    · obtain ⟨r1, hr1, ho⟩ := finish_st _ _ _ h
      have hf := show_frame w fuel _ _ hr1
      rw [ho, hf.1, hf.2.1]
      exact ⟨rfl, hst.1, hst.2⟩

/-- Witness for C1: two slides and the keys space, space, `h`, `KEY_END`. -/
theorem index_stays_in_deck_witness :
    1 ≤ 2 ∧ ∃ out, main calm 3 2 [32, 32, 104, KEY_END] = some out ∧
      out.st.nslides = (2 : Nat) ∧ 0 ≤ out.st.currentslide ∧
        out.st.currentslide ≤ ((2 : Nat) : Int) - 1 := by
  refine ⟨by decide, ?_⟩
  obtain ⟨out, ho⟩ :=
    (index_stays_in_deck calm 0 2 [32, 32, 104, KEY_END] (by decide)).2.2 (fun _ => rfl)
  exact ⟨out, ho, (index_stays_in_deck calm 3 2 [32, 32, 104, KEY_END] (by decide)).2.1 out ho⟩

/-- C5: whenever a run of `main` without signals blocks in `getch`, the
flag is clear, the most recent call of `loadcurrentslide` was made with the
current index, and `currentslidep` and `currentslidelen` are the bytes (and
their length as an `int`) that the most recent acquisition obtained for
`slidefiles[currentslide]`.  With at least one file, no failing acquisition
or `munmap`, and no quit key in the input, the run does block in `getch`. -/
theorem resident_content_matches_index (w : World) (fuel nfiles : Nat) (keys : List Int) :
    (∀ s, main w fuel nfiles keys = some (.waiting s) →
      s.slidechanged = 0 ∧ lastLoad s.trace = some s.currentslide ∧
        ∃ b, lastAcquire s.trace = some (s.currentslide, .ok b) ∧
          s.currentslidep = some b ∧ s.currentslidelen = toInt32 b.length) ∧
    (1 ≤ nfiles → (∀ t i, ∃ b, w.acquire t i = .ok b) → (∀ t, w.munmapOk t = true) →
      (∀ c ∈ keys, c ∉ quitKeys) →
      ∃ s, main w (fuel + 1) nfiles keys = some (.waiting s)) := by
  constructor
  · intro s h
    simp only [main] at h
    split at h
    · rcases hc : die w fuel .usage false globals with _ | r
      · rw [hc] at h; simp [finish] at h
      · rw [hc] at h; cases r <;> simp [finish] at h
    · split at h
      · next s1 hs1 =>
        refine again_synced w fuel keys s1 s ?_ h
        rcases show_returns w fuel _ _ hs1 with ⟨_, b, _, he⟩ | ⟨hd, _⟩
        · rw [he]; exact synced_rendered b _
        · simp [started, globals] at hd
      · rcases hr : atShow w fuel (started nfiles) with _ | r
        · rw [hr] at h; simp [finish] at h
        · rw [hr] at h; cases r <;> simp [finish] at h
  · intro hn ha hm hk
    have h0 : nfiles ≠ 0 := by omega
    obtain ⟨s1, hs1⟩ := show_progress w fuel (started nfiles) ha hm
    simp only [main, if_neg h0, hs1]
    exact again_progress w fuel keys ha hm hk s1

/-- Witness for C5: two slides, the keys space, space, `KEY_HOME`, `r`. -/
theorem resident_content_matches_index_witness :
    ∃ s, main calm (0 + 1) 2 [32, 32, KEY_HOME, 114] = some (.waiting s) ∧
      s.slidechanged = 0 ∧ lastLoad s.trace = some s.currentslide ∧
        ∃ b, lastAcquire s.trace = some (s.currentslide, .ok b) ∧
          s.currentslidep = some b ∧ s.currentslidelen = toInt32 b.length := by
  obtain ⟨s, hs⟩ :=
    (resident_content_matches_index calm 0 2 [32, 32, KEY_HOME, 114]).2 (by decide)
      (fun _ i => ⟨[i.toNat], rfl⟩) (fun _ => rfl) (by decide)
  exact ⟨s, hs, (resident_content_matches_index calm (0 + 1) 2 [32, 32, KEY_HOME, 114]).1 s hs⟩

/-- C6: `slidechanged` is 1 at process start and still 1 when `main` first
reaches `show:`, so the run without any input calls the loader exactly once,
with index 0, and blocks with slide 0 rendered when that acquisition
succeeds.  From every state the render step calls `loadcurrentslide` exactly
once with the current index when `slidechanged` is not 0 on entry and not at
all when it is 0; whenever the step ends, `slidechanged` is 0; and when
`munmap` does not fail the step does end. -/
theorem render_step_loads_iff_dirty (w : World) (fuel n : Nat) (s : St) :
    globals.slidechanged = 1 ∧ (started (n + 1)).slidechanged = 1 ∧
    (∀ out, main w fuel (n + 1) [] = some out →
      ∃ ev, out.st.trace = (started (n + 1)).trace ++ ev ∧ loadsOf ev = [0]) ∧
    (∀ b, w.acquire (emit (started (n + 1)) (.load 0)).trace.length 0 = .ok b →
      main w (fuel + 1) (n + 1) [] = some (.waiting (rendered b (started (n + 1))))) ∧
    (∀ r, atShow w fuel s = some r →
      r.st.slidechanged = 0 ∧
        ∃ ev, r.st.trace = s.trace ++ ev ∧
          loadsOf ev = if s.slidechanged ≠ 0 then [s.currentslide] else []) ∧
    ((∀ t, w.munmapOk t = true) → ∃ r, atShow w (fuel + 3) s = some r) := by
  refine ⟨rfl, rfl, ?_, ?_, ?_, fun hm => show_total w hm fuel s⟩
  · intro out h
    have hst : ∀ r, atShow w fuel (started (n + 1)) = some r →
        ∃ ev, r.st.trace = (started (n + 1)).trace ++ ev ∧ loadsOf ev = [0] := by
      intro r hr
      obtain ⟨ev, he, hl⟩ := show_trace w fuel _ _ hr
      exact ⟨ev, he, by simpa [started, globals] using hl⟩
    simp only [main, Nat.succ_ne_zero, if_false] at h
    split at h
    · next s1 hs1 =>
      simp only [atAgain, Option.some.injEq] at h
      subst h
      exact hst _ hs1
    · obtain ⟨r1, hr1, ho⟩ := finish_st _ _ _ h
      rw [ho]
      exact hst _ hr1
  · intro b hb
    have := show_ok w fuel (started (n + 1)) b (by simp [started, globals]) (Or.inl rfl) hb
    simp only [main, Nat.succ_ne_zero, if_false, this, atAgain]
  · intro r hr
    exact ⟨(show_frame w fuel s r hr).2.2, show_trace w fuel s r hr⟩

/-- Witness for C6: the first render of a one-slide deck, and a render with
the flag set from a state with content resident. -/
theorem render_step_loads_iff_dirty_witness :
    calm.acquire (emit (started (0 + 1)) (.load 0)).trace.length 0 = .ok [0] ∧
      main calm (0 + 1) (0 + 1) [] = some (.waiting (rendered [0] (started (0 + 1)))) ∧
      ∃ r, atShow calm (0 + 3) { resident with slidechanged := 1 } = some r ∧
        r.st.slidechanged = 0 :=
  have h := render_step_loads_iff_dirty calm 0 0 { resident with slidechanged := 1 }
  have h3 := render_step_loads_iff_dirty calm 3 0 { resident with slidechanged := 1 }
  ⟨rfl, h.2.2.2.1 [0] rfl,
    (h.2.2.2.2.2 (fun _ => rfl)).elim fun r hr => ⟨r, hr, (h3.2.2.2.2.1 r hr).1⟩⟩

/-- C7 (amended): whatever the signal, `reloadcurrentslide` leaves
`slidechanged = 1` and the index as it was, and with SIGHUP its first call is
`raise(SIGWINCH)`.  Whatever the environment does, the render step that
follows calls the loader exactly once, with the index `i` the program was
blocked at, and keeps that index.  Provided `raise` succeeds, the handler
returns and the key `KEY_RESIZE` jumps to `show:`; provided the release of
the old content and the acquisition succeed with bytes `b`, the render step
makes `b` the resident content and hands `b` to `printw` with its length as
an `int`, which is the number of bytes when that is below `2^31`. -/
theorem reload_signal_reacquires (w : World) (fuel : Nat) (s : St) (cs : List Int)
    (b : List Nat) :
    (∀ sig r, reloadcurrentslide w fuel sig s = some r →
      r.st.slidechanged = 1 ∧ r.st.currentslide = s.currentslide) ∧
    (∀ r, reloadcurrentslide w fuel SIGHUP s = some r →
      ∃ ok ev, r.st.trace = s.trace ++ .raise SIGWINCH ok :: ev) ∧
    (∀ r, atShow w fuel (afterReload s) = some r →
      r.st.currentslide = s.currentslide ∧
        ∃ ev, r.st.trace = (afterReload s).trace ++ ev ∧ loadsOf ev = [s.currentslide]) ∧
    (w.raiseOk s.trace.length = true →
      reloadcurrentslide w fuel SIGHUP s = some (.ret (afterReload s)) ∧
      (afterReload s).trace = s.trace ++ [.raise SIGWINCH true] ∧
      switchKey (afterReload s) KEY_RESIZE = (.show, afterReload s)) ∧
    ((s.currentslidep = none ∨ w.munmapOk (s.trace.length + 2) = true) →
      w.acquire (released (emit (afterReload s) (.load s.currentslide))).trace.length
        s.currentslide = .ok b →
      atShow w (fuel + 1) (afterReload s) = some (.ret (rendered b (afterReload s))) ∧
      atAgain w (fuel + 1) (afterReload s) (KEY_RESIZE :: cs)
        = atAgain w (fuel + 1) (rendered b (afterReload s)) cs ∧
      (rendered b (afterReload s)).currentslide = s.currentslide ∧
      (rendered b (afterReload s)).currentslidep = some b ∧
      (rendered b (afterReload s)).trace
        = (released (emit (afterReload s) (.load s.currentslide))).trace ++
            [.acquire s.currentslide (.ok b), .clear, .refresh,
             .printw (toInt32 b.length) (some b)] ∧
      (b.length < 2147483648 → toInt32 b.length = b.length)) := by
  have hsw : switchKey (afterReload s) KEY_RESIZE = (.show, afterReload s) := by
    have h1 : KEY_RESIZE ∉ quitKeys := by decide
    have h2 : KEY_RESIZE ∉ nextKeys := by decide
    have h3 : KEY_RESIZE ∉ prevKeys := by decide
    have h4 : KEY_RESIZE ∉ firstKeys := by decide
    have h5 : KEY_RESIZE ∉ lastKeys := by decide
    have h6 : KEY_RESIZE ∈ reloadKeys := by decide
    simp only [switchKey, if_neg h1, if_neg h2, if_neg h3, if_neg h4, if_neg h5, if_pos h6]
  refine ⟨?_, ?_, ?_, ?_, ?_⟩
  · intro sig r h
    simp only [reloadcurrentslide] at h
    split_ifs at h
    · cases h; exact ⟨rfl, rfl⟩
    · exact ⟨((mutual_frame w fuel).2.2 _ _ _ _ h).2.2,
        ((mutual_frame w fuel).2.2 _ _ _ _ h).2.1⟩
    · cases h; exact ⟨rfl, rfl⟩
  · intro r h
    simp only [reloadcurrentslide, if_true] at h
    split_ifs at h
    · cases h; exact ⟨true, [], rfl⟩
    · obtain ⟨ev, he, _⟩ := (mutual_no_load w fuel).2.2 _ _ _ _ h
      exact ⟨false, ev, by rw [he]; simp [emit]⟩
  · intro r h
    obtain ⟨ev, he, hl⟩ := show_trace w fuel _ _ h
    refine ⟨(show_frame w fuel _ _ h).2.1, ev, he, ?_⟩
    simpa [afterReload, emit] using hl
  · intro hraise
    refine ⟨?_, rfl, hsw⟩
    simp only [reloadcurrentslide, if_true, hraise]
    rfl
  · intro hunmap hacq
    have hshow : atShow w (fuel + 1) (afterReload s)
        = some (.ret (rendered b (afterReload s))) := by
      apply show_ok w fuel (afterReload s) b
      · simp [afterReload, emit]
      · rcases hunmap with h | h
        · exact Or.inl h
        · right; simpa [afterReload, emit] using h
      · exact hacq
    refine ⟨hshow, ?_, rendered_currentslide b _, rendered_currentslidep b _,
      rendered_trace b _, ?_⟩
    · simp only [atAgain, hsw, hshow]
    · intro hlen
      simp only [toInt32]
      omega

/-- Witness for C7: SIGHUP while the only slide is displayed; the bytes on
disk are then `[9, 9]` instead of the resident `[72]`. -/
theorem reload_signal_reacquires_witness :
    reloadcurrentslide { calm with acquire := fun _ _ => .ok [9, 9] } 0 SIGHUP resident
        = some (.ret (afterReload resident)) ∧
      atShow { calm with acquire := fun _ _ => .ok [9, 9] } (0 + 1) (afterReload resident)
        = some (.ret (rendered [9, 9] (afterReload resident))) ∧
      (rendered [9, 9] (afterReload resident)).currentslide = resident.currentslide ∧
      (rendered [9, 9] (afterReload resident)).currentslidep = some [9, 9] :=
  have h := reload_signal_reacquires { calm with acquire := fun _ _ => .ok [9, 9] } 0
    resident [] [9, 9]
  have h3 := h.2.2.2.2 (Or.inr rfl) rfl
  ⟨(h.2.2.2.1 rfl).1, h3.1, h3.2.2.1, h3.2.2.2.1⟩

/-- Counterexample to C7 as stated: blocked at index 0 with the flag clear
and slide 0 resident, SIGHUP is delivered and `raise` succeeds, but the
slide file can no longer be opened.  The render step started by `KEY_RESIZE`
unmaps the old content, fails in `open`, and ends the process through `die`
with status 1 (unmapping the stale pointer once more on the way); no
`printw` is called, so no bytes of the file are displayed. -/
theorem reload_with_unopenable_file_exits :
    resident.slidechanged = 0 ∧
      reloadcurrentslide missing 3 SIGHUP resident = some (.ret (afterReload resident)) ∧
      atAgain missing 3 (afterReload resident) [KEY_RESIZE]
        = some (.exited 1 { resident with
            trace := [.raise SIGWINCH true, .load 0, .munmap true, .acquire 0 .openFail,
              .munmap true, .endwin, .stderr (.openf 0) true] }) ∧
      List.any [Ev.raise SIGWINCH true, .load 0, .munmap true, .acquire 0 .openFail,
        .munmap true, .endwin, .stderr (.openf 0) true] Ev.isPrintw = false := by
  decide

end Catpoint
